import Mathlib

/-!
Shallow embedding of the prediction-terminal matching-and-arbitrage engine and
of the terminal UI state logic under src/, for checking the specification's
claims.  Data shapes follow terminal/src/types.ts; monetary and time values
are exact rationals.  The Python engine modules (comparator.py, cache.py,
api_server.py) are not under src/, so those components are modelled from the
spec, as marked on each definition.
-/

namespace PMT

/-- One tradeable contract, from terminal/src/types.ts NormalizedMarket.
Prices and volume are exact rationals; close_time is nullable (spec section 3)
and measured in days as a rational instant. -/
structure NormalizedMarket where
  question : String
  yes_price : ℚ
  no_price : ℚ
  volume : ℚ
  source : String
  market_id : String
  parent_event_id : String
  parent_event_title : String
  close_time : Option ℚ
  url : String
deriving DecidableEq

/-- Discriminator for the cheaper hedge leg, from types.ts ArbitrageResult.best_leg. -/
inductive BestLeg where
  | pm_yes_ks_no
  | ks_yes_pm_no
deriving DecidableEq

/-- A matched market pair, from types.ts MarketMatchResult. -/
structure MarketMatchResult where
  poly_market : NormalizedMarket
  kalshi_market : NormalizedMarket
  score : ℚ
deriving DecidableEq

/-- An arbitrage row, from types.ts ArbitrageResult. -/
structure ArbitrageResult where
  poly_market : NormalizedMarket
  kalshi_market : NormalizedMarket
  match_score : ℚ
  best_leg : BestLeg
  spread : ℚ
  profit : ℚ
  days_to_resolution : Option ℤ
  annualized_return : Option ℚ
deriving DecidableEq

/-- Modelled from the spec: comparator.py is not under src/.  Spec 4.4: the
earlier of the two close times, when at least one is present. -/
def minClose : Option ℚ → Option ℚ → Option ℚ
  | none, none => none
  | some a, none => some a
  | none, some b => some b
  | some a, some b => some (min a b)

/-- Modelled from the spec: comparator.py is not under src/.  Spec 4.4:
days_to_resolution = floor((close - now) in days), null when neither market
has a close time, clamped to null when negative. -/
def days_to_resolution (pmClose ksClose : Option ℚ) (now : ℚ) : Option ℤ :=
  match minClose pmClose ksClose with
  | none => none
  | some close => if ⌊close - now⌋ < 0 then none else some ⌊close - now⌋

/-- Modelled from the spec: comparator.py is not under src/.  Spec 4.4:
annualized_return is null when days is null or ≤ 0, else (profit/days)*365. -/
def annualized_return (profit : ℚ) : Option ℤ → Option ℚ
  | none => none
  | some d => if d ≤ 0 then none else some (profit / (d : ℚ) * 365)

/-- Modelled from the spec: comparator.py is not under src/.  Spec 4.4: the two
cross-platform hedge costs, the cheaper leg, spread and profit. -/
def detectArb (now : ℚ) (pm ks : NormalizedMarket) (score : ℚ) : ArbitrageResult :=
  let leg1 := pm.yes_price + ks.no_price
  let leg2 := ks.yes_price + pm.no_price
  let spread := min leg1 leg2
  let profit := 1 - spread
  let days := days_to_resolution pm.close_time ks.close_time now
  { poly_market := pm
    kalshi_market := ks
    match_score := score
    best_leg := if leg1 ≤ leg2 then BestLeg.pm_yes_ks_no else BestLeg.ks_yes_pm_no
    spread := spread
    profit := profit
    days_to_resolution := days
    annualized_return := annualized_return profit days }

/-- Modelled from the spec: comparator.py is not under src/.  Spec 4.4: one
result per matched pair; non-opportunities (profit ≤ 0) are still emitted. -/
def find_arbitrage (now : ℚ) (ms : List MarketMatchResult) : List ArbitrageResult :=
  ms.map (fun mm => detectArb now mm.poly_market mm.kalshi_market mm.score)

/-- Null-last key for sorting by annualized_return: null maps to bottom. -/
def annBot : Option ℚ → WithBot ℚ
  | none => ⊥
  | some q => (q : WithBot ℚ)

/-- Modelled from the spec: the ordering contract of spec 4.4 — annualized
return descending with nulls last, ties broken by profit descending.  Read
`arbBefore a b` as: a may come at or before b. -/
def arbBefore (a b : ArbitrageResult) : Prop :=
  annBot b.annualized_return < annBot a.annualized_return ∨
    (annBot b.annualized_return = annBot a.annualized_return ∧ b.profit ≤ a.profit)

instance : DecidableRel arbBefore := fun a b =>
  inferInstanceAs (Decidable (annBot b.annualized_return < annBot a.annualized_return ∨
    (annBot b.annualized_return = annBot a.annualized_return ∧ b.profit ≤ a.profit)))

instance : IsTotal ArbitrageResult arbBefore := by
  constructor
  intro a b
  unfold arbBefore
  rcases lt_trichotomy (annBot a.annualized_return) (annBot b.annualized_return) with h | h | h
  · exact Or.inr (Or.inl h)
  · rcases le_total b.profit a.profit with hp | hp
    · exact Or.inl (Or.inr ⟨h.symm, hp⟩)
    · exact Or.inr (Or.inr ⟨h, hp⟩)
  · exact Or.inl (Or.inl h)

instance : IsTrans ArbitrageResult arbBefore := by
  constructor
  intro a b c hab hbc
  unfold arbBefore at hab hbc ⊢
  rcases hab with h1 | ⟨h1, p1⟩ <;> rcases hbc with h2 | ⟨h2, p2⟩
  · exact Or.inl (lt_trans h2 h1)
  · exact Or.inl (by rw [h2]; exact h1)
  · exact Or.inl (by rw [← h1]; exact h2)
  · exact Or.inr ⟨h2.trans h1, p2.trans p1⟩

/-- Modelled from the spec: the arbitrage result sequence is returned sorted
per spec 4.4. -/
def sortArb (l : List ArbitrageResult) : List ArbitrageResult :=
  List.insertionSort arbBefore l

/-- Modelled from the spec: the arbitrage operation of spec 6 — detector over
the matched pairs, then the 4.4 sort. -/
def arbitrageOp (now : ℚ) (ms : List MarketMatchResult) : List ArbitrageResult :=
  sortArb (find_arbitrage now ms)

/-- Fixture market with neutral fields, for concrete examples. -/
def blankMarket : NormalizedMarket :=
  { question := ""
    yes_price := 0
    no_price := 0
    volume := 0
    source := ""
    market_id := ""
    parent_event_id := ""
    parent_event_title := ""
    close_time := none
    url := "" }

/-- The Polymarket side of the spec's worked example: Yes 2.1 cents, No 97 cents. -/
def exPm : NormalizedMarket :=
  { blankMarket with yes_price := 21/1000, no_price := 97/100, source := "polymarket", market_id := "pm-1" }

/-- The Kalshi side of the spec's worked example: Yes 5 cents, No 96 cents. -/
def exKs : NormalizedMarket :=
  { blankMarket with yes_price := 1/20, no_price := 24/25, source := "kalshi", market_id := "ks-1" }

/-- The spec's ordering example, first element: profit 0.02, unknown resolution. -/
def arbEx1 : ArbitrageResult :=
  { poly_market := blankMarket
    kalshi_market := blankMarket
    match_score := 0
    best_leg := BestLeg.pm_yes_ks_no
    spread := 49/50
    profit := 1/50
    days_to_resolution := none
    annualized_return := none }

/-- The spec's ordering example, second element: profit 0.01 over 10 days,
annualized (0.01/10)*365 = 0.365. -/
def arbEx2 : ArbitrageResult :=
  { arbEx1 with
    profit := 1/100
    spread := 99/100
    days_to_resolution := some 10
    annualized_return := some (73/200) }

/-- A candidate pairing in the greedy one-to-one assignment (spec 4.2/4.3):
row and column indices into the two platform lists, its similarity score and
the combined volume used as first tie-break. -/
structure Cand where
  polyIdx : ℕ
  kalshiIdx : ℕ
  score : ℚ
  vol : ℚ
deriving DecidableEq

/-- Modelled from the spec: strict priority between candidates — higher score
first, ties by greater combined volume; a later candidate replaces the current
pick only when strictly better, so equal priority keeps input order. -/
def better (a b : Cand) : Bool :=
  decide (a.score < b.score ∨ (a.score = b.score ∧ a.vol < b.vol))

/-- Fold that keeps the best candidate seen so far (first wins on ties). -/
def pickAcc (acc : Cand) (cs : List Cand) : Cand :=
  cs.foldl (fun a c => if better a c then c else a) acc

/-- Modelled from the spec: the highest-priority remaining candidate, none on
an empty matrix. -/
def pickBest : List Cand → Option Cand
  | [] => none
  | c :: cs => some (pickAcc c cs)

/-- Candidates that survive accepting b: spec 4.2 removes b's row and column. -/
def keepAfter (b c : Cand) : Bool :=
  decide (c.polyIdx ≠ b.polyIdx ∧ c.kalshiIdx ≠ b.kalshiIdx)

/-- Modelled from the spec: greedy assignment loop of spec 4.2 — repeatedly
accept the best remaining candidate while its score is at least the threshold
(inclusive bound), removing its row and column.  Fuel bounds the recursion. -/
def greedyAux (thr : ℚ) : ℕ → List Cand → List Cand
  | 0, _ => []
  | Nat.succ fuel, cs =>
    match pickBest cs with
    | none => []
    | some b =>
      if thr ≤ b.score then b :: greedyAux thr fuel (cs.filter (keepAfter b))
      else []

/-- Modelled from the spec: greedy one-to-one assignment (spec 4.2/4.3); the
candidate count bounds the number of accepted pairs. -/
def greedy (thr : ℚ) (cs : List Cand) : List Cand :=
  greedyAux thr cs.length cs

/-- Modelled from the spec: the result assembler of spec 4.5 — one group per
accepted event pair, holding that pair's greedy market assignment. -/
def assembleRun (evThr mkThr : ℚ) (evCands : List Cand) (mk : ℕ → ℕ → List Cand) :
    List (Cand × List Cand) :=
  (greedy evThr evCands).map (fun e => (e, greedy mkThr (mk e.polyIdx e.kalshiIdx)))

/-- Poly-side market identities of an assembled run: (event row, market row). -/
def polyMarketIds (run : List (Cand × List Cand)) : List (ℕ × ℕ) :=
  run.flatMap (fun g => g.2.map (fun m => (g.1.polyIdx, m.polyIdx)))

/-- Kalshi-side market identities of an assembled run: (event col, market col). -/
def kalshiMarketIds (run : List (Cand × List Cand)) : List (ℕ × ℕ) :=
  run.flatMap (fun g => g.2.map (fun m => (g.1.kalshiIdx, m.kalshiIdx)))

/-- Modelled from the spec: cache.py is not under src/.  One cached row of
spec section 3: the score, the two display titles and the cached_at stamp. -/
structure CacheEntry where
  score : ℚ
  title1 : String
  title2 : String
  cached_at : ℤ
deriving DecidableEq

/-- Modelled from the spec: cache.py is not under src/.  The match cache as an
association list keyed by the order-independent pair_key. -/
abbrev Cache := List (String × CacheEntry)

/-- Modelled from the spec: store overwrites any existing row for the key
(spec 4.1). -/
def cacheStore (k : String) (score : ℚ) (t1 t2 : String) (now : ℤ) (c : Cache) : Cache :=
  (k, ⟨score, t1, t2, now⟩) :: c.filter (fun row => decide (row.1 ≠ k))

/-- Modelled from the spec: lookup-time staleness (spec 4.1) — the lookup is
absent when now − cached_at > max_age even though the row still exists. -/
def cacheLookup (k : String) (now maxAge : ℤ) (c : Cache) : Option (ℚ × String × String) :=
  match c.find? (fun row => decide (row.1 = k)) with
  | none => none
  | some row =>
    if maxAge < now - row.2.cached_at then none
    else some (row.2.score, row.2.title1, row.2.title2)

/-- Modelled from the spec: stats counts physically present rows (spec 4.1). -/
def cacheStats (c : Cache) : ℕ := c.length

/-- Modelled from the spec: clear drops all cache rows (spec 6). -/
def cacheClear (_ : Cache) : Cache := []

/-- Whether a row for the key physically exists, regardless of staleness. -/
def cacheHasRow (k : String) (c : Cache) : Bool :=
  (c.find? (fun row => decide (row.1 = k))).isSome

/-- A streaming frame of the spec-6 channel. -/
inductive Frame where
  | progress (msg : String)
  | done
  | error (msg : String)
deriving DecidableEq

/-- Whether a frame is terminal (done or error). -/
def Frame.isTerminal : Frame → Bool
  | Frame.progress _ => false
  | Frame.done => true
  | Frame.error _ => true

/-- Outcome of a run: success, or a run-level error with its cause string. -/
inductive RunOutcome where
  | ok
  | failed (msg : String)
deriving DecidableEq

/-- Modelled from the spec: the streaming emitter in api_server.py is not under
src/.  Spec 6: a run emits its progress messages in order, then exactly one
terminal frame chosen by the outcome. -/
def runFrames (progs : List String) (out : RunOutcome) : List Frame :=
  progs.map Frame.progress ++
    [match out with
     | RunOutcome.ok => Frame.done
     | RunOutcome.failed m => Frame.error m]

/-- The slice of the zustand store (terminal/src/store.ts) used by the claims:
the per-platform default event limit. -/
structure TerminalState where
  defaultLimit : ℤ
deriving DecidableEq

/-- Initial store state, store.ts: defaultLimit starts at 200. -/
def initialState : TerminalState := { defaultLimit := 200 }

/-- Longest leading decimal-digit run of a character list, as a number; none
when there is no leading digit. -/
def leadingDigits (l : List Char) : Option ℕ :=
  match l.takeWhile Char.isDigit with
  | [] => none
  | ds => some (ds.foldl (fun acc c => 10 * acc + (c.toNat - '0'.toNat)) 0)

/-- JS parseInt(s, 10) on a whitespace-free token, as used by App.tsx
runCommand: optional sign, then the longest digit run; none models NaN. -/
def jsParseInt (s : String) : Option ℤ :=
  match s.data with
  | '-' :: rest => (leadingDigits rest).map (fun n => -(n : ℤ))
  | '+' :: rest => (leadingDigits rest).map (fun n => (n : ℤ))
  | l => (leadingDigits l).map (fun n => (n : ℤ))

/-- App.tsx runCommand: numArg is NaN when there is no second token, else
parseInt of it. -/
def numArgOf : Option String → Option ℤ
  | none => none
  | some a => jsParseInt a

/-- App.tsx runCommand, LIMIT branch: the store's default limit is updated
only when the argument parsed and is greater than zero. -/
def runLimit (st : TerminalState) (arg : Option String) : TerminalState :=
  match numArgOf arg with
  | some n => if 0 < n then { st with defaultLimit := n } else st
  | none => st

/-- JS String.trim modelled structurally on the character list. -/
def trimChars (l : List Char) : List Char :=
  ((l.dropWhile Char.isWhitespace).reverse.dropWhile Char.isWhitespace).reverse

/-- JS String.trim on a string value. -/
def jsTrim (s : String) : String := String.mk (trimChars s.data)

/-- CommandBar.tsx onKeyDown, Enter branch: the command handed to runCommand
(none when the input is blank after trimming) and the new history list, the
trimmed command prepended to at most 49 retained entries. -/
def onEnter (value : String) (history : List String) : Option String × List String :=
  let trimmed := jsTrim value
  if trimmed = "" then (none, history)
  else (some trimmed, trimmed :: history.take 49)

/-- The fold underlying pickBest returns its accumulator or a list element. -/
theorem pickAcc_mem (acc : Cand) (cs : List Cand) :
    pickAcc acc cs = acc ∨ pickAcc acc cs ∈ cs := by
  induction cs generalizing acc with
  | nil => exact Or.inl rfl
  | cons c cs ih =>
    have hstep : pickAcc acc (c :: cs) = pickAcc (if better acc c then c else acc) cs := rfl
    rcases ih (if better acc c then c else acc) with h | h
    · rw [hstep, h]
      by_cases hb : better acc c
      · right
        simp [hb]
      · left
        simp [hb]
    · right
      rw [hstep]
      exact List.mem_cons_of_mem _ h

/-- pickBest returns a member of its input list. -/
theorem pickBest_mem {cs : List Cand} {b : Cand} (h : pickBest cs = some b) : b ∈ cs := by
  cases cs with
  | nil => simp [pickBest] at h
  | cons c cs =>
    have hb : pickAcc c cs = b := by simpa [pickBest] using h
    rcases pickAcc_mem c cs with h' | h'
    · rw [← hb, h']
      exact List.mem_cons_self _ _
    · rw [← hb]
      exact List.mem_cons_of_mem _ h'

/-- Unfolding step for the greedy loop when a best candidate exists. -/
theorem greedyAux_succ (thr : ℚ) (n : ℕ) (cs : List Cand) (b : Cand)
    (hpb : pickBest cs = some b) :
    greedyAux thr (n + 1) cs =
      if thr ≤ b.score then b :: greedyAux thr n (cs.filter (keepAfter b)) else [] := by
  simp only [greedyAux, hpb]

/-- Every pair accepted by the greedy loop comes from the candidate list. -/
theorem greedyAux_mem (thr : ℚ) :
    ∀ (fuel : ℕ) (cs : List Cand) (x : Cand), x ∈ greedyAux thr fuel cs → x ∈ cs := by
  intro fuel
  induction fuel with
  | zero =>
    intro cs x hx
    simp [greedyAux] at hx
  | succ n ih =>
    intro cs x hx
    cases hpb : pickBest cs with
    | none =>
      simp only [greedyAux, hpb] at hx
      simp at hx
    | some b =>
      rw [greedyAux_succ thr n cs b hpb] at hx
      by_cases ht : thr ≤ b.score
      · rw [if_pos ht] at hx
        rcases List.mem_cons.mp hx with rfl | hx'
        · exact pickBest_mem hpb
        · exact (List.mem_filter.mp (ih _ x hx')).1
      · rw [if_neg ht] at hx
        simp at hx

/-- The greedy loop never reuses a row or a column: its output is pairwise
distinct in both indices. -/
theorem greedyAux_pairwise (thr : ℚ) :
    ∀ (fuel : ℕ) (cs : List Cand),
      (greedyAux thr fuel cs).Pairwise
        (fun a b => a.polyIdx ≠ b.polyIdx ∧ a.kalshiIdx ≠ b.kalshiIdx) := by
  intro fuel
  induction fuel with
  | zero =>
    intro cs
    simp [greedyAux]
  | succ n ih =>
    intro cs
    cases hpb : pickBest cs with
    | none =>
      simp only [greedyAux, hpb]
      exact List.Pairwise.nil
    | some b =>
      rw [greedyAux_succ thr n cs b hpb]
      by_cases ht : thr ≤ b.score
      · rw [if_pos ht]
        refine List.Pairwise.cons ?_ (ih _)
        intro x hx
        have hf : x ∈ cs.filter (keepAfter b) := greedyAux_mem thr n _ x hx
        have hk : x.polyIdx ≠ b.polyIdx ∧ x.kalshiIdx ≠ b.kalshiIdx := by
          simpa [keepAfter] using (List.mem_filter.mp hf).2
        exact ⟨fun hEq => hk.1 hEq.symm, fun hEq => hk.2 hEq.symm⟩
      · rw [if_neg ht]
        exact List.Pairwise.nil

/-- The one-to-one invariant for a whole greedy assignment. -/
theorem greedy_pairwise (thr : ℚ) (cs : List Cand) :
    (greedy thr cs).Pairwise
      (fun a b => a.polyIdx ≠ b.polyIdx ∧ a.kalshiIdx ≠ b.kalshiIdx) :=
  greedyAux_pairwise thr cs.length cs

/-- Tagged flattening of per-group lists is duplicate-free when the outer tags
are pairwise distinct and each group is duplicate-free in its own tag. -/
theorem flatMap_tagged_nodup (f g : Cand → ℕ) (l : List Cand) (grp : Cand → List Cand)
    (hl : l.Pairwise (fun a b => f a ≠ f b))
    (hg : ∀ e, (grp e).Pairwise (fun a b => g a ≠ g b)) :
    (l.flatMap (fun e => (grp e).map (fun m => (f e, g m)))).Nodup := by
  rw [List.nodup_flatMap]
  constructor
  · intro e _
    rw [List.Nodup, List.pairwise_map]
    exact (hg e).imp (fun h hEq => h (congrArg Prod.snd hEq))
  · refine hl.imp ?_
    intro a b hab x hxa hxb
    obtain ⟨m, _, rfl⟩ := List.mem_map.mp hxa
    obtain ⟨m2, _, heq⟩ := List.mem_map.mp hxb
    exact hab (congrArg Prod.fst heq).symm

/-- Claim C3: in a single run every event index appears in at most one
accepted event pair, every market identity appears in at most one market pair,
and the assembled per-event groups preserve this: no event pair and no tagged
market identity occurs twice across the assembled output. -/
theorem claim_C3 (evThr mkThr : ℚ) (evCands : List Cand) (mk : ℕ → ℕ → List Cand) :
    ((assembleRun evThr mkThr evCands mk).map Prod.fst).Pairwise
        (fun a b => a.polyIdx ≠ b.polyIdx ∧ a.kalshiIdx ≠ b.kalshiIdx) ∧
    (polyMarketIds (assembleRun evThr mkThr evCands mk)).Nodup ∧
    (kalshiMarketIds (assembleRun evThr mkThr evCands mk)).Nodup := by
  have hev := greedy_pairwise evThr evCands
  refine ⟨?_, ?_, ?_⟩
  · rw [assembleRun, List.pairwise_map, List.pairwise_map]
    exact hev.imp (fun h => h)
  · have hrw : polyMarketIds (assembleRun evThr mkThr evCands mk) =
        (greedy evThr evCands).flatMap
          (fun e => (greedy mkThr (mk e.polyIdx e.kalshiIdx)).map
            (fun m => (e.polyIdx, m.polyIdx))) := by
      simp [polyMarketIds, assembleRun, List.flatMap_map]
    rw [hrw]
    exact flatMap_tagged_nodup (fun c => c.polyIdx) (fun c => c.polyIdx) _ _
      (hev.imp (fun h => h.1)) (fun e => (greedy_pairwise mkThr _).imp (fun h => h.1))
  · have hrw : kalshiMarketIds (assembleRun evThr mkThr evCands mk) =
        (greedy evThr evCands).flatMap
          (fun e => (greedy mkThr (mk e.polyIdx e.kalshiIdx)).map
            (fun m => (e.kalshiIdx, m.kalshiIdx))) := by
      simp [kalshiMarketIds, assembleRun, List.flatMap_map]
    rw [hrw]
    exact flatMap_tagged_nodup (fun c => c.kalshiIdx) (fun c => c.kalshiIdx) _ _
      (hev.imp (fun h => h.2)) (fun e => (greedy_pairwise mkThr _).imp (fun h => h.2))

/-- Claim C7: a candidate scoring exactly the acceptance threshold is accepted
(inclusive bound); a candidate scoring below the threshold is rejected, and a
matrix whose scores are all below the threshold yields no matches at all. -/
theorem claim_C7 (thr : ℚ) (c : Cand) :
    (c.score = thr → greedy thr [c] = [c]) ∧
    (c.score < thr → greedy thr [c] = []) ∧
    (∀ cs : List Cand, (∀ x ∈ cs, x.score < thr) → greedy thr cs = []) := by
  have hpb : pickBest [c] = some c := rfl
  refine ⟨?_, ?_, ?_⟩
  · intro hs
    show greedyAux thr 1 [c] = [c]
    rw [greedyAux_succ thr 0 [c] c hpb, if_pos hs.ge]
    rfl
  · intro hs
    show greedyAux thr 1 [c] = []
    rw [greedyAux_succ thr 0 [c] c hpb, if_neg (not_le.mpr hs)]
  · intro cs hall
    cases cs with
    | nil => rfl
    | cons a as =>
      have hb : pickBest (a :: as) = some (pickAcc a as) := rfl
      have hblt := hall _ (pickBest_mem hb)
      show greedyAux thr (as.length + 1) (a :: as) = []
      rw [greedyAux_succ thr as.length (a :: as) _ hb, if_neg (not_le.mpr hblt)]

/-- Witness for C7: threshold 0.8 accepts a 0.8-scoring pair and rejects a
0.799-scoring pair. -/
theorem claim_C7_witness :
    greedy (4/5) [⟨0, 0, 4/5, 0⟩] = [⟨0, 0, 4/5, 0⟩] ∧
    greedy (4/5) [⟨0, 0, 799/1000, 0⟩] = [] :=
  ⟨(claim_C7 (4/5) ⟨0, 0, 4/5, 0⟩).1 rfl,
    (claim_C7 (4/5) ⟨0, 0, 799/1000, 0⟩).2.1 (by norm_num)⟩

/-- Claim C4: annualized_return is null exactly when days_to_resolution is
null or ≤ 0, and otherwise equals (profit / days) * 365 as an exact rational;
profit 0.02 over 3 days gives (0.02/3)*365 = 73/30. -/
theorem claim_C4 :
    (∀ (p : ℚ) (d : Option ℤ),
      annualized_return p d = none ↔ d = none ∨ ∃ k, d = some k ∧ k ≤ 0) ∧
    (∀ (p : ℚ) (k : ℤ), 0 < k → annualized_return p (some k) = some (p / (k : ℚ) * 365)) ∧
    annualized_return (1/50) (some 3) = some (73/30) := by
  refine ⟨?_, ?_, ?_⟩
  · intro p d
    cases d with
    | none => simp [annualized_return]
    | some k =>
      by_cases hk : k ≤ 0
      · simp [annualized_return, hk]
      · simp [annualized_return, hk]
  · intro p k hk
    simp [annualized_return, not_le.mpr hk]
  · norm_num [annualized_return]

/-- Witness for C4 at profit 0.02 and 3 days. -/
theorem claim_C4_witness :
    annualized_return (1/50) (some 3) = some ((1 : ℚ)/50 / (3 : ℚ) * 365) :=
  claim_C4.2.1 (1/50) 3 (by norm_num)

/-- Claim C5: days_to_resolution is floor((close − now) in days) where close
is the earlier non-null close time; null when neither market has a close time;
a negative value is clamped to null; and null days propagates to null
annualized_return. -/
theorem claim_C5 :
    (∀ now : ℚ, days_to_resolution none none now = none) ∧
    (∀ a : ℚ, minClose (some a) none = some a) ∧
    (∀ b : ℚ, minClose none (some b) = some b) ∧
    (∀ a b : ℚ, minClose (some a) (some b) = some (min a b)) ∧
    (∀ (cp ck : Option ℚ) (now close : ℚ), minClose cp ck = some close →
      0 ≤ ⌊close - now⌋ → days_to_resolution cp ck now = some ⌊close - now⌋) ∧
    (∀ (cp ck : Option ℚ) (now close : ℚ), minClose cp ck = some close →
      ⌊close - now⌋ < 0 → days_to_resolution cp ck now = none) ∧
    (∀ (p : ℚ) (cp ck : Option ℚ) (now : ℚ), days_to_resolution cp ck now = none →
      annualized_return p (days_to_resolution cp ck now) = none) := by
  refine ⟨?_, ?_, ?_, ?_, ?_, ?_, ?_⟩
  · intro now; rfl
  · intro a; rfl
  · intro b; rfl
  · intro a b; rfl
  · intro cp ck now close h hge
    simp [days_to_resolution, h, not_lt.mpr hge]
  · intro cp ck now close h hlt
    simp [days_to_resolution, h, hlt]
  · intro p cp ck now h
    rw [h]
    rfl

/-- Witness for C5: a close 5 days out, a close 1 day in the past, and null
propagation. -/
theorem claim_C5_witness :
    days_to_resolution (some 5) none 0 = some 5 ∧
    days_to_resolution (some 0) none 1 = none ∧
    annualized_return (1/50) (days_to_resolution (some 0) none 1) = none := by
  have h1 := claim_C5.2.2.2.2.1 (some 5) none 0 5 rfl (by norm_num)
  have h2 := claim_C5.2.2.2.2.2.1 (some 0) none 1 0 rfl (by norm_num)
  have h3 := claim_C5.2.2.2.2.2.2 (1/50) (some 0) none 1 h2
  refine ⟨?_, h2, h3⟩
  rw [h1]
  norm_num

/-- Claim C6: store then lookup within the max-age window returns the stored
score and titles unchanged; once the age exceeds max_age the lookup is absent
even though the row still physically exists and stats still counts it, until
clear drops everything. -/
theorem claim_C6 (k : String) (s : ℚ) (t1 t2 : String) (now t maxAge : ℤ) (c : Cache) :
    (t - now ≤ maxAge →
      cacheLookup k t maxAge (cacheStore k s t1 t2 now c) = some (s, t1, t2)) ∧
    (maxAge < t - now →
      cacheLookup k t maxAge (cacheStore k s t1 t2 now c) = none) ∧
    cacheHasRow k (cacheStore k s t1 t2 now c) = true ∧
    1 ≤ cacheStats (cacheStore k s t1 t2 now c) ∧
    cacheStats (cacheClear (cacheStore k s t1 t2 now c)) = 0 := by
  have hfind : (cacheStore k s t1 t2 now c).find? (fun row => decide (row.1 = k)) =
      some (k, ⟨s, t1, t2, now⟩) := by
    unfold cacheStore
    exact List.find?_cons_of_pos _ (by simp)
  refine ⟨?_, ?_, ?_, ?_, ?_⟩
  · intro h
    simp [cacheLookup, hfind, not_lt.mpr h]
  · intro h
    simp [cacheLookup, hfind, h]
  · simp [cacheHasRow, hfind]
  · simp [cacheStats, cacheStore]
  · rfl

/-- Witness for C6 at a concrete key, a fresh lookup and a stale lookup. -/
theorem claim_C6_witness :
    cacheLookup "p1|k1" 3 7 (cacheStore "p1|k1" (9/10) "T1" "T2" 0 []) = some (9/10, "T1", "T2") ∧
    cacheLookup "p1|k1" 20 7 (cacheStore "p1|k1" (9/10) "T1" "T2" 0 []) = none ∧
    cacheHasRow "p1|k1" (cacheStore "p1|k1" (9/10) "T1" "T2" 0 []) = true ∧
    cacheStats (cacheClear (cacheStore "p1|k1" (9/10) "T1" "T2" 0 [])) = 0 := by
  have h := claim_C6 "p1|k1" (9/10) "T1" "T2" 0 3 7 []
  have h' := claim_C6 "p1|k1" (9/10) "T1" "T2" 0 20 7 []
  exact ⟨h.1 (by norm_num), h'.2.1 (by norm_num), h.2.2.1, h.2.2.2.2⟩

/-- Claim C9: the per-platform event limit defaults to 200, and LIMIT N
updates it only when N parses as a positive integer; non-numeric or
non-positive arguments leave it unchanged. -/
theorem claim_C9 :
    initialState.defaultLimit = 200 ∧
    (∀ (st : TerminalState) (arg : Option String) (n : ℤ),
      numArgOf arg = some n → 0 < n → (runLimit st arg).defaultLimit = n) ∧
    (∀ (st : TerminalState) (arg : Option String) (n : ℤ),
      numArgOf arg = some n → n ≤ 0 → runLimit st arg = st) ∧
    (∀ (st : TerminalState) (arg : Option String),
      numArgOf arg = none → runLimit st arg = st) := by
  refine ⟨rfl, ?_, ?_, ?_⟩
  · intro st arg n h hpos
    simp [runLimit, h, hpos]
  · intro st arg n h hle
    simp [runLimit, h, not_lt.mpr hle]
  · intro st arg h
    simp [runLimit, h]

/-- Witness for C9: LIMIT 50 updates, LIMIT ABC / LIMIT -5 / LIMIT 0 and a
missing argument do not. -/
theorem claim_C9_witness :
    (runLimit initialState (some "50")).defaultLimit = 50 ∧
    runLimit initialState (some "ABC") = initialState ∧
    runLimit initialState (some "-5") = initialState ∧
    runLimit initialState (some "0") = initialState ∧
    runLimit initialState none = initialState := by
  refine ⟨claim_C9.2.1 _ _ 50 (by decide) (by decide),
    claim_C9.2.2.2 _ _ (by decide),
    claim_C9.2.2.1 _ _ (-5) (by decide) (by decide),
    claim_C9.2.2.1 _ _ 0 (by decide) (by decide),
    claim_C9.2.2.2 _ _ rfl⟩

/-- Claim C10: Enter on input that is blank after trimming runs no command and
leaves the history unchanged; on non-blank input the trimmed command is
prepended; the history never exceeds 50 entries (at 50 the oldest is
dropped). -/
theorem claim_C10 (v : String) (h : List String) :
    (jsTrim v = "" → onEnter v h = (none, h)) ∧
    (jsTrim v ≠ "" →
      (onEnter v h).1 = some (jsTrim v) ∧
      (onEnter v h).2 = jsTrim v :: h.take 49 ∧
      ((onEnter v h).2).length = min 49 h.length + 1) ∧
    (h.length ≤ 50 → ((onEnter v h).2).length ≤ 50) := by
  refine ⟨?_, ?_, ?_⟩
  · intro hb
    simp [onEnter, hb]
  · intro hb
    refine ⟨by simp [onEnter, hb], by simp [onEnter, hb], ?_⟩
    simp [onEnter, hb, List.length_take]
  · intro hlen
    by_cases hb : jsTrim v = ""
    · simpa [onEnter, hb] using hlen
    · simp [onEnter, hb, List.length_take]

/-- Witness for C10: a blank input, a padded command, and a full history. -/
theorem claim_C10_witness :
    onEnter "   " ["A"] = (none, ["A"]) ∧
    (onEnter "  ARB 50  " []).1 = some "ARB 50" ∧
    ((onEnter "X" (List.replicate 50 "Y")).2).length ≤ 50 := by
  refine ⟨(claim_C10 "   " ["A"]).1 (by decide), ?_, ?_⟩
  · have h := (claim_C10 "  ARB 50  " []).2.1 (by decide)
    rw [h.1]
    decide
  · exact (claim_C10 "X" (List.replicate 50 "Y")).2.2 (by simp)

/-- Claim C1: the detector computes leg1 = PM yes + KS no and
leg2 = KS yes + PM no, picks the smaller leg as best_leg, spread = min of the
legs, profit = 1 − spread; on the worked example (PM Yes 0.021, PM No 0.97,
KS Yes 0.05, KS No 0.96) it picks leg1 with spread 0.981 and profit 0.019;
and a result is emitted for every matched pair, profitable or not. -/
theorem claim_C1 :
    (∀ (now : ℚ) (pm ks : NormalizedMarket) (s : ℚ),
      (detectArb now pm ks s).spread =
          min (pm.yes_price + ks.no_price) (ks.yes_price + pm.no_price) ∧
      (detectArb now pm ks s).profit =
          1 - min (pm.yes_price + ks.no_price) (ks.yes_price + pm.no_price) ∧
      (pm.yes_price + ks.no_price ≤ ks.yes_price + pm.no_price →
        (detectArb now pm ks s).best_leg = BestLeg.pm_yes_ks_no ∧
        (detectArb now pm ks s).spread = pm.yes_price + ks.no_price) ∧
      (ks.yes_price + pm.no_price < pm.yes_price + ks.no_price →
        (detectArb now pm ks s).best_leg = BestLeg.ks_yes_pm_no ∧
        (detectArb now pm ks s).spread = ks.yes_price + pm.no_price)) ∧
    (∀ (now : ℚ) (l : List MarketMatchResult), (find_arbitrage now l).length = l.length) ∧
    (detectArb 0 exPm exKs 0).best_leg = BestLeg.pm_yes_ks_no ∧
    (detectArb 0 exPm exKs 0).spread = 981/1000 ∧
    (detectArb 0 exPm exKs 0).profit = 19/1000 := by
  have hex : exPm.yes_price + exKs.no_price ≤ exKs.yes_price + exPm.no_price := by
    norm_num [exPm, exKs, blankMarket]
  refine ⟨?_, ?_, ?_, ?_, ?_⟩
  · intro now pm ks s
    refine ⟨rfl, rfl, ?_, ?_⟩
    · intro hle
      exact ⟨by simp [detectArb, hle], by simp [detectArb, min_eq_left hle]⟩
    · intro hlt
      exact ⟨by simp [detectArb, not_le.mpr hlt],
        by simp [detectArb, min_eq_right (le_of_lt hlt)]⟩
  · intro now l
    simp [find_arbitrage]
  · simp [detectArb, hex]
  · have : (detectArb 0 exPm exKs 0).spread = exPm.yes_price + exKs.no_price := by
      simp [detectArb, min_eq_left hex]
    rw [this]
    norm_num [exPm, exKs, blankMarket]
  · have : (detectArb 0 exPm exKs 0).spread = exPm.yes_price + exKs.no_price := by
      simp [detectArb, min_eq_left hex]
    show 1 - (detectArb 0 exPm exKs 0).spread = 19/1000
    rw [this]
    norm_num [exPm, exKs, blankMarket]

/-- Witness for C1 at the spec's worked example, discharging the leg-choice
hypothesis. -/
theorem claim_C1_witness :
    (detectArb 0 exPm exKs 0).best_leg = BestLeg.pm_yes_ks_no ∧
    (detectArb 0 exPm exKs 0).spread = exPm.yes_price + exKs.no_price :=
  (claim_C1.1 0 exPm exKs 0).2.2.1 (by norm_num [exPm, exKs, blankMarket])

/-- Claim C2: the arbitrage output is sorted by annualized_return descending
with nulls last and ties broken by profit descending; the spec's two-element
example sorts the 10-day result before the null-days result. -/
theorem claim_C2 :
    (∀ l : List ArbitrageResult,
      (sortArb l).Pairwise (fun a b =>
        annBot b.annualized_return < annBot a.annualized_return ∨
          (annBot b.annualized_return = annBot a.annualized_return ∧ b.profit ≤ a.profit))) ∧
    sortArb [arbEx1, arbEx2] = [arbEx2, arbEx1] := by
  constructor
  · intro l
    exact List.sorted_insertionSort arbBefore l
  · have h12 : ¬ arbBefore arbEx1 arbEx2 := by
      unfold arbBefore
      simp [arbEx1, arbEx2, annBot]
    simp [sortArb, List.insertionSort, List.orderedInsert, h12]

/-- Claim C8: a streaming run's frame list is zero or more progress frames
followed by exactly one terminal frame; the terminal frame only occurs at the
final position, done when the run succeeded and error with the cause when it
failed. -/
theorem claim_C8 (progs : List String) (out : RunOutcome) :
    0 < (runFrames progs out).length ∧
    (runFrames progs out).countP Frame.isTerminal = 1 ∧
    (∀ (i : ℕ) (hi : i < (runFrames progs out).length),
      ((runFrames progs out).get ⟨i, hi⟩).isTerminal = true → i = progs.length) ∧
    (out = RunOutcome.ok → (runFrames progs out).getLast? = some Frame.done) ∧
    (∀ m, out = RunOutcome.failed m →
      (runFrames progs out).getLast? = some (Frame.error m)) := by
  refine ⟨?_, ?_, ?_, ?_, ?_⟩
  · simp [runFrames]
  · cases out <;>
      simp [runFrames, Frame.isTerminal, List.countP_append, List.countP_map,
        Function.comp, List.countP_cons]
  · intro i hi hterm
    have hlen : (runFrames progs out).length = progs.length + 1 := by
      simp [runFrames]
    rcases Nat.lt_or_ge i progs.length with hlt | hge
    · exfalso
      have h1 : i < (List.map Frame.progress progs).length := by simpa using hlt
      have hget : (runFrames progs out).get ⟨i, hi⟩ = Frame.progress progs[i] := by
        have h2 : (runFrames progs out).get ⟨i, hi⟩ =
            (List.map Frame.progress progs)[i] := by
          simp only [runFrames, List.get_eq_getElem]
          exact List.getElem_append_left h1
        rw [h2]
        simp
      rw [hget] at hterm
      simp [Frame.isTerminal] at hterm
    · omega
  · intro h
    subst h
    simp [runFrames]
  · intro m h
    subst h
    simp [runFrames]

/-- Witness for C8 on a one-progress successful run, discharging the terminal
position hypothesis at index 1. -/
theorem claim_C8_witness :
    (runFrames ["fetching"] RunOutcome.ok).countP Frame.isTerminal = 1 ∧
    (1 : ℕ) = (["fetching"] : List String).length ∧
    (runFrames ["fetching"] RunOutcome.ok).getLast? = some Frame.done := by
  refine ⟨(claim_C8 ["fetching"] RunOutcome.ok).2.1, ?_, ?_⟩
  · exact (claim_C8 ["fetching"] RunOutcome.ok).2.2.1 1 (by decide) (by decide)
  · exact (claim_C8 ["fetching"] RunOutcome.ok).2.2.2.1 rfl

end PMT
